import Mathlib

/-!
Verification of the Nuke plugin bootstrap script (`__init__.py`).

The script is a straight-line module body:

  build = os.path.join(os.path.dirname(__file__), 'build')
  plugins = '{}/Nuke{}.{}'.format(build, nuke.NUKE_VERSION_MAJOR, nuke.NUKE_VERSION_MINOR)
  if os.path.isdir(plugins):
      nuke.pluginAddPath(plugins)
      menu = nuke.menu('Nodes').addMenu('Examples')
      for p in os.listdir(plugins):
          name = p.split('.')[0]
          nuke.load(name)
          menu.addCommand(name)

We embed it as a pure function from an environment (the script's directory,
the host's version numbers, the filesystem's `isdir` answer and directory
listing) to the list of host API calls it performs, in order.
-/

/-- Python's `str.split(sep)` for a one-character separator, over the
character list of the string.  `split` always returns at least one piece:
`"".split('.') == [""]` and a leading separator yields a leading empty piece. -/
def pySplit (sep : Char) : List Char → List (List Char)
  | [] => [[]]
  | c :: cs =>
    if c = sep then [] :: pySplit sep cs
    else
      match pySplit sep cs with
      | [] => [[c]]
      | h :: t => (c :: h) :: t

/-- `name = p.split('.')[0]` from the script: the first piece of splitting
the filename on `'.'`. -/
def shortName (p : String) : String :=
  String.mk ((pySplit '.' p.data).headD [])

/-- The spec's description of the derivation: "the substring before the
first `.`". -/
def specShortName (p : String) : String :=
  String.mk (p.data.takeWhile (fun c => c != '.'))

/-- `os.path.join(a, b)` for a relative POSIX component `b`: append `b`,
inserting a `/` unless `a` is empty or already ends in `/`. -/
def osPathJoin (a b : String) : String :=
  if a = "" then b
  else if a.data.getLast? = some '/' then a ++ b
  else a ++ "/" ++ b

/-- The environment the script reads: its own directory
(`os.path.dirname(__file__)`), the host's reported version numbers, and
the filesystem (the `os.path.isdir` answer and the `os.listdir` result
for each path). -/
structure Env where
  scriptDir : String
  versionMajor : Nat
  versionMinor : Nat
  isDir : String → Bool
  listdir : String → List String

/-- One call into the host application's API. -/
inductive HostCall where
  /-- `nuke.pluginAddPath(path)` -/
  | pluginAddPath (path : String)
  /-- `nuke.menu(name)` -/
  | getMenu (name : String)
  /-- `<menu>.addMenu(child)` on the menu `parent` -/
  | addMenu (parent child : String)
  /-- `nuke.load(name)` -/
  | load (name : String)
  /-- `<menu>.addCommand(name)` on the submenu `child` of menu `parent` -/
  | addCommand (parent child name : String)
deriving DecidableEq, Repr

/-- `build = os.path.join(os.path.dirname(__file__), 'build')`. -/
def buildDir (e : Env) : String :=
  osPathJoin e.scriptDir "build"

/-- `plugins = '{}/Nuke{}.{}'.format(build, MAJOR, MINOR)`. -/
def pluginsPath (e : Env) : String :=
  buildDir e ++ "/Nuke" ++ toString e.versionMajor ++ "." ++ toString e.versionMinor

/-- The two host calls the loop body makes for one directory entry `p`:
`nuke.load(name)` then `menu.addCommand(name)` with `name = p.split('.')[0]`. -/
def perEntry (p : String) : List HostCall :=
  [HostCall.load (shortName p),
   HostCall.addCommand "Nodes" "Examples" (shortName p)]

/-- The host calls the module body performs, in order. -/
def runScript (e : Env) : List HostCall :=
  if e.isDir (pluginsPath e) then
    HostCall.pluginAddPath (pluginsPath e) ::
    HostCall.getMenu "Nodes" ::
    HostCall.addMenu "Nodes" "Examples" ::
    (e.listdir (pluginsPath e)).flatMap perEntry
  else []

/-- Names passed to `nuke.load` in a call trace, in order. -/
def loadedNames : List HostCall → List String
  | [] => []
  | HostCall.load n :: cs => n :: loadedNames cs
  | _ :: cs => loadedNames cs

/-- Names passed to `addCommand` in a call trace, in order. -/
def commandNames : List HostCall → List String
  | [] => []
  | HostCall.addCommand _ _ n :: cs => n :: commandNames cs
  | _ :: cs => commandNames cs

/-- Paths passed to `nuke.pluginAddPath` in a call trace, in order. -/
def registeredPaths : List HostCall → List String
  | [] => []
  | HostCall.pluginAddPath s :: cs => s :: registeredPaths cs
  | _ :: cs => registeredPaths cs

lemma pySplit_ne_nil (sep : Char) (l : List Char) : pySplit sep l ≠ [] := by
  cases l with
  | nil => simp [pySplit]
  | cons c cs =>
    simp only [pySplit]
    split
    · simp
    · split
      · simp
      · simp

lemma pySplit_headD (sep : Char) (l : List Char) :
    (pySplit sep l).headD [] = l.takeWhile (fun c => c != sep) := by
  induction l with
  | nil => rfl
  | cons c cs ih =>
    simp only [pySplit, List.takeWhile]
    by_cases hc : c = sep
    · simp [hc]
    · rcases hs : pySplit sep cs with _ | ⟨h, t⟩
      · exact absurd hs (pySplit_ne_nil sep cs)
      · have hh : h = List.takeWhile (fun x => x != sep) cs := by
          rw [← ih, hs]; rfl
        have hb : (c != sep) = true := by simp [hc]
        rw [if_neg hc, hb]
        show c :: h = c :: List.takeWhile (fun x => x != sep) cs
        rw [hh]

/-- Claim C1: the derived short name is the substring before the first
period; in particular `"foo.py"` derives `"foo"` and `"foo.bar.py"`
derives `"foo"`. -/
theorem shortName_before_first_dot :
    (∀ p : String, shortName p = specShortName p) ∧
    shortName "foo.py" = "foo" ∧ shortName "foo.bar.py" = "foo" := by
  refine ⟨fun p => ?_, by decide, by decide⟩
  unfold shortName specShortName
  rw [pySplit_headD]

lemma loadedNames_append (a b : List HostCall) :
    loadedNames (a ++ b) = loadedNames a ++ loadedNames b := by
  induction a with
  | nil => rfl
  | cons c cs ih => cases c <;> simp [loadedNames, ih]

lemma commandNames_append (a b : List HostCall) :
    commandNames (a ++ b) = commandNames a ++ commandNames b := by
  induction a with
  | nil => rfl
  | cons c cs ih => cases c <;> simp [commandNames, ih]

lemma registeredPaths_append (a b : List HostCall) :
    registeredPaths (a ++ b) = registeredPaths a ++ registeredPaths b := by
  induction a with
  | nil => rfl
  | cons c cs ih => cases c <;> simp [registeredPaths, ih]

lemma loadedNames_flatMap (l : List String) :
    loadedNames (l.flatMap perEntry) = l.map shortName := by
  induction l with
  | nil => rfl
  | cons p ps ih =>
    rw [List.flatMap_cons, loadedNames_append, ih]
    rfl

lemma commandNames_flatMap (l : List String) :
    commandNames (l.flatMap perEntry) = l.map shortName := by
  induction l with
  | nil => rfl
  | cons p ps ih =>
    rw [List.flatMap_cons, commandNames_append, ih]
    rfl

lemma registeredPaths_flatMap (l : List String) :
    registeredPaths (l.flatMap perEntry) = [] := by
  induction l with
  | nil => rfl
  | cons p ps ih =>
    rw [List.flatMap_cons, registeredPaths_append, ih]
    rfl

lemma runScript_isDir (e : Env) (h : e.isDir (pluginsPath e) = true) :
    runScript e =
      HostCall.pluginAddPath (pluginsPath e) ::
      HostCall.getMenu "Nodes" ::
      HostCall.addMenu "Nodes" "Examples" ::
      (e.listdir (pluginsPath e)).flatMap perEntry := by
  simp [runScript, h]

lemma runScript_not_isDir (e : Env) (h : e.isDir (pluginsPath e) = false) :
    runScript e = [] := by
  simp [runScript, h]

lemma loadedNames_runScript (e : Env) (h : e.isDir (pluginsPath e) = true) :
    loadedNames (runScript e) = (e.listdir (pluginsPath e)).map shortName := by
  rw [runScript_isDir e h]
  show loadedNames ((e.listdir (pluginsPath e)).flatMap perEntry) = _
  exact loadedNames_flatMap _

lemma commandNames_runScript (e : Env) (h : e.isDir (pluginsPath e) = true) :
    commandNames (runScript e) = (e.listdir (pluginsPath e)).map shortName := by
  rw [runScript_isDir e h]
  show commandNames ((e.listdir (pluginsPath e)).flatMap perEntry) = _
  exact commandNames_flatMap _

/-- A sample environment: the directory exists and lists two files. -/
def envTwo : Env :=
  { scriptDir := "/nk"
    versionMajor := 13
    versionMinor := 2
    isDir := fun _ => true
    listdir := fun _ => ["foo.py", "bar.gizmo"] }

/-- Claim C2: when the loop runs, each directory entry contributes exactly
one `nuke.load` call and one `addCommand` call on the Examples submenu of
the Nodes menu, each with the entry's derived short name: the loaded names
and the added command names are both exactly the listing mapped through
the short-name derivation, in order. -/
theorem each_entry_two_calls (e : Env) (h : e.isDir (pluginsPath e) = true) :
    loadedNames (runScript e) = (e.listdir (pluginsPath e)).map shortName ∧
    commandNames (runScript e) = (e.listdir (pluginsPath e)).map shortName ∧
    ∀ p, p ∈ e.listdir (pluginsPath e) →
      HostCall.load (shortName p) ∈ runScript e ∧
      HostCall.addCommand "Nodes" "Examples" (shortName p) ∈ runScript e := by
  refine ⟨loadedNames_runScript e h, commandNames_runScript e h, fun p hp => ?_⟩
  rw [runScript_isDir e h]
  constructor
  · simp only [List.mem_cons]
    refine Or.inr (Or.inr (Or.inr ?_))
    exact List.mem_flatMap.mpr ⟨p, hp, by simp [perEntry]⟩
  · simp only [List.mem_cons]
    refine Or.inr (Or.inr (Or.inr ?_))
    exact List.mem_flatMap.mpr ⟨p, hp, by simp [perEntry]⟩

/-- Witness for C2 at a concrete environment. -/
theorem each_entry_two_calls_witness :
    loadedNames (runScript envTwo) = ["foo", "bar"] ∧
    commandNames (runScript envTwo) = ["foo", "bar"] := by
  have h := each_entry_two_calls envTwo (by decide)
  exact ⟨h.1.trans (by decide), h.2.1.trans (by decide)⟩

/-- Claim C3: the existence check guards every host interaction: the
script performs no host call at all exactly when `os.path.isdir` fails on
the computed plugins path. -/
theorem isdir_guards_all_calls (e : Env) :
    runScript e = [] ↔ e.isDir (pluginsPath e) = false := by
  constructor
  · intro h
    cases hd : e.isDir (pluginsPath e) with
    | false => rfl
    | true => rw [runScript_isDir e hd] at h; exact absurd h (by simp)
  · exact runScript_not_isDir e

/-- Claim C4: the one path registered with the host is the
version-specific subdirectory `Nuke<major>.<minor>` of the `build`
directory adjacent to the script, for every script location and version
pair. -/
theorem registered_path_is_versioned_build_subdir (e : Env)
    (h : e.isDir (pluginsPath e) = true) :
    registeredPaths (runScript e) =
      [osPathJoin e.scriptDir "build" ++ "/Nuke" ++
        toString e.versionMajor ++ "." ++ toString e.versionMinor] := by
  rw [runScript_isDir e h]
  show pluginsPath e :: registeredPaths ((e.listdir (pluginsPath e)).flatMap perEntry) = _
  rw [registeredPaths_flatMap]
  rfl

/-- Witness for C4 at a concrete environment. -/
theorem registered_path_is_versioned_build_subdir_witness :
    registeredPaths (runScript envTwo) = ["/nk/build/Nuke13.2"] := by
  have h := registered_path_is_versioned_build_subdir envTwo (by decide)
  exact h.trans (by decide)

/-- Claim C5: the effects happen in one fixed linear order: register the
plugins path, obtain the Nodes menu, create the Examples submenu, then
for each listed entry in order load its short name and then add its menu
command; in particular the first call of the trace is the path
registration, so it precedes every load. -/
theorem calls_in_fixed_order (e : Env) (h : e.isDir (pluginsPath e) = true) :
    runScript e =
      HostCall.pluginAddPath (pluginsPath e) ::
      HostCall.getMenu "Nodes" ::
      HostCall.addMenu "Nodes" "Examples" ::
      (e.listdir (pluginsPath e)).flatMap
        (fun p => [HostCall.load (shortName p),
                   HostCall.addCommand "Nodes" "Examples" (shortName p)]) ∧
    (runScript e).head? = some (HostCall.pluginAddPath (pluginsPath e)) := by
  refine ⟨runScript_isDir e h, ?_⟩
  rw [runScript_isDir e h]
  rfl

/-- Witness for C5 at a concrete environment. -/
theorem calls_in_fixed_order_witness :
    runScript envTwo =
      [HostCall.pluginAddPath "/nk/build/Nuke13.2",
       HostCall.getMenu "Nodes",
       HostCall.addMenu "Nodes" "Examples",
       HostCall.load "foo",
       HostCall.addCommand "Nodes" "Examples" "foo",
       HostCall.load "bar",
       HostCall.addCommand "Nodes" "Examples" "bar"] := by
  have h := (calls_in_fixed_order envTwo (by decide)).1
  exact h.trans (by decide)

/-- Sequential execution of a call trace against a host on which each call
either succeeds or raises (`ok c = false`).  The module body contains no
try/except, so calls run in order until the first raising call, whose
exception escapes: the result is the list of calls actually performed and
the call whose exception propagated, if any. -/
def execute (ok : HostCall → Bool) : List HostCall → List HostCall × Option HostCall
  | [] => ([], none)
  | c :: cs =>
    if ok c then (c :: (execute ok cs).1, (execute ok cs).2)
    else ([], some c)

lemma execute_eq (ok : HostCall → Bool) (l : List HostCall) :
    execute ok l = (l.takeWhile ok, (l.dropWhile ok).head?) := by
  induction l with
  | nil => rfl
  | cons c cs ih =>
    by_cases h : ok c = true
    · simp [execute, List.takeWhile_cons, List.dropWhile_cons, h, ih]
    · have hb : ok c = false := by revert h; cases ok c <;> simp
      simp [execute, List.takeWhile_cons, List.dropWhile_cons, hb]

lemma execute_raised_none_iff (ok : HostCall → Bool) (l : List HostCall) :
    (execute ok l).2 = none ↔ ∀ c ∈ l, ok c = true := by
  induction l with
  | nil => simp [execute]
  | cons c cs ih =>
    by_cases h : ok c = true
    · simp [execute, h, ih]
    · have hb : ok c = false := by revert h; cases ok c <;> simp
      simp [execute, hb]

/-- Claim C6: the script adds no error handling.  Run against a host on
which some calls raise, it performs exactly the calls preceding the first
failing one, the first failing call's exception propagates unchanged, and
no exception escapes exactly when every call succeeds: no recovery, retry
or reporting logic exists in the trace's execution. -/
theorem no_added_error_handling (e : Env) (ok : HostCall → Bool) :
    (execute ok (runScript e)).1 = (runScript e).takeWhile ok ∧
    (execute ok (runScript e)).2 = ((runScript e).dropWhile ok).head? ∧
    ((execute ok (runScript e)).2 = none ↔ ∀ c ∈ runScript e, ok c = true) := by
  refine ⟨?_, ?_, execute_raised_none_iff ok (runScript e)⟩
  · rw [execute_eq]
  · rw [execute_eq]

/-- Modelled from the spec: the repository's second bootstrap script is
not present under `src/`.  Per the spec — "No invariants beyond 'the
path, if used, must exist as a directory' are enforced by the script
itself (one variant checks this; the other does not)" — the second
variant behaves as the first but omits the `os.path.isdir` check, so its
body runs unconditionally. -/
def runScriptNoCheck (e : Env) : List HostCall :=
  HostCall.pluginAddPath (pluginsPath e) ::
  HostCall.getMenu "Nodes" ::
  HostCall.addMenu "Nodes" "Examples" ::
  (e.listdir (pluginsPath e)).flatMap perEntry

/-- Claim C7: the two bootstrap variants are behaviourally equivalent
whenever the plugin directory exists: they then perform the same host
calls in the same order. -/
theorem variants_agree_when_dir_exists (e : Env)
    (h : e.isDir (pluginsPath e) = true) :
    runScript e = runScriptNoCheck e :=
  runScript_isDir e h

/-- Witness for C7 at a concrete environment. -/
theorem variants_agree_when_dir_exists_witness :
    runScript envTwo = runScriptNoCheck envTwo :=
  variants_agree_when_dir_exists envTwo (by decide)

lemma perEntry_calls_mem (e : Env) (h : e.isDir (pluginsPath e) = true)
    (p : String) (hp : p ∈ e.listdir (pluginsPath e)) :
    HostCall.load (shortName p) ∈ runScript e ∧
    HostCall.addCommand "Nodes" "Examples" (shortName p) ∈ runScript e := by
  rw [runScript_isDir e h]
  constructor
  · simp only [List.mem_cons]
    exact Or.inr (Or.inr (Or.inr (List.mem_flatMap.mpr ⟨p, hp, by simp [perEntry]⟩)))
  · simp only [List.mem_cons]
    exact Or.inr (Or.inr (Or.inr (List.mem_flatMap.mpr ⟨p, hp, by simp [perEntry]⟩)))

/-- A sample environment whose plugin directory holds one hidden file. -/
def envHidden : Env :=
  { scriptDir := "/nk"
    versionMajor := 13
    versionMinor := 2
    isDir := fun _ => true
    listdir := fun _ => [".hidden"] }

/-- Claim C8: a filename with no period derives itself; a filename
beginning with a period derives the empty string, which is still passed
to both host calls (`nuke.load` and `addCommand`). -/
theorem dotless_and_hidden_names (p : String) (e : Env) :
    (Char.ofNat 46 ∉ p.data → shortName p = p) ∧
    (p.data.head? = some (Char.ofNat 46) → shortName p = "") ∧
    (e.isDir (pluginsPath e) = true → p ∈ e.listdir (pluginsPath e) →
      HostCall.load (shortName p) ∈ runScript e ∧
      HostCall.addCommand "Nodes" "Examples" (shortName p) ∈ runScript e) := by
  have hdot : Char.ofNat 46 = '.' := by decide
  refine ⟨fun hno => ?_, fun hhead => ?_, fun h hp => perEntry_calls_mem e h p hp⟩
  · unfold shortName
    rw [pySplit_headD]
    have : p.data.takeWhile (fun c => c != '.') = p.data := by
      apply List.takeWhile_eq_self_iff.mpr
      intro a ha
      have : a ≠ '.' := fun hh => hno (hdot ▸ hh ▸ ha)
      simp [this]
    rw [this]
  · unfold shortName
    rw [pySplit_headD]
    rcases hd : p.data with _ | ⟨c, cs⟩
    · rfl
    · rw [hd] at hhead
      have hc : c = '.' := by
        rw [← hdot]; exact (Option.some_inj.mp hhead.symm).symm
      rw [List.takeWhile_cons, hc]
      rfl

/-- Witness for C8 at concrete filenames and a concrete environment. -/
theorem dotless_and_hidden_names_witness :
    shortName "README" = "README" ∧ shortName ".hidden" = "" ∧
    HostCall.load "" ∈ runScript envHidden ∧
    HostCall.addCommand "Nodes" "Examples" "" ∈ runScript envHidden := by
  have h1 := (dotless_and_hidden_names "README" envHidden).1 (by decide)
  have h2 := (dotless_and_hidden_names ".hidden" envHidden).2.1 (by decide)
  have h3 := (dotless_and_hidden_names ".hidden" envHidden).2.2 (by decide) (by decide)
  exact ⟨h1, h2, h2 ▸ h3.1, h2 ▸ h3.2⟩

/-- A sample environment whose listing has two entries sharing the part
before the first period. -/
def envDup : Env :=
  { scriptDir := "/nk"
    versionMajor := 13
    versionMinor := 2
    isDir := fun _ => true
    listdir := fun _ => ["foo.py", "foo.gizmo"] }

/-- Claim C9: no de-duplication: the load calls and the added commands
are each in one-to-one correspondence with the directory entries, so the
listing `["foo.py", "foo.gizmo"]` loads the name `"foo"` twice and adds
it to the menu twice. -/
theorem no_dedup_per_entry :
    (∀ e : Env, e.isDir (pluginsPath e) = true →
      (loadedNames (runScript e)).length = (e.listdir (pluginsPath e)).length ∧
      (commandNames (runScript e)).length = (e.listdir (pluginsPath e)).length) ∧
    loadedNames (runScript envDup) = ["foo", "foo"] ∧
    commandNames (runScript envDup) = ["foo", "foo"] := by
  refine ⟨fun e h => ?_, by decide, by decide⟩
  rw [loadedNames_runScript e h, commandNames_runScript e h]
  constructor
  · exact List.length_map _ _
  · exact List.length_map _ _

/-- Witness for C9 at a concrete environment. -/
theorem no_dedup_per_entry_witness :
    (loadedNames (runScript envDup)).length = 2 ∧
    (commandNames (runScript envDup)).length = 2 := by
  have h := no_dedup_per_entry.1 envDup (by decide)
  exact ⟨h.1.trans (by decide), h.2.trans (by decide)⟩

/-- Claim C10: the script is deterministic in its observed inputs: two
environments agreeing on the script location, the version numbers, the
existence-check answer at the computed path, and the listing of that path
produce identical host-call traces, whatever else their filesystems do. -/
theorem runScript_deterministic (a b : Env)
    (hd : a.scriptDir = b.scriptDir)
    (hM : a.versionMajor = b.versionMajor)
    (hm : a.versionMinor = b.versionMinor)
    (hi : a.isDir (pluginsPath a) = b.isDir (pluginsPath b))
    (hl : a.listdir (pluginsPath a) = b.listdir (pluginsPath b)) :
    runScript a = runScript b := by
  have hp : pluginsPath a = pluginsPath b := by
    unfold pluginsPath buildDir osPathJoin
    rw [hd, hM, hm]
  rw [hp] at hi hl
  simp only [runScript, hp, hi, hl]

/-- An environment whose filesystem oracle answers from string tests, for
the determinism witness. -/
def envDetB : Env :=
  { scriptDir := "/nk"
    versionMajor := 13
    versionMinor := 2
    isDir := fun s => !s.data.isEmpty
    listdir := fun s => if s.data.isEmpty then [] else ["foo.py", "bar.gizmo"] }

/-- Witness for C10: two concrete environments with different filesystem
oracles that agree on the observed inputs yield the same trace. -/
theorem runScript_deterministic_witness :
    runScript envTwo = runScript envDetB :=
  runScript_deterministic envTwo envDetB rfl rfl rfl (by decide) (by decide)
